import Mathlib

/-!
Verification of the table-transform core of the HMWSSB report generator
(`app1.py`).  The in-scope logic is `process_and_format` (column validation,
partition of rows on the `ISGOVTCAN` flag, descending sort on `LASTDEMAND`,
header styling, column auto-width) and `process_combined_files` (tagging with
an `HCC Type` column and concatenation), together with the combined route that
packages three workbooks into an archive.

The embedding works at two levels, mirroring the source:
* CSV/dataframe level: a `Table` holds rows of optional string cells, as
  produced by `pd.read_csv` (a missing/empty field is `none`, i.e. NaN).
  Column dtype inference is modelled by `colNumeric`: fields matching the
  default `na_values` strings load as NaN, and a column is numeric exactly
  when every remaining value parses as a number (decimal, exponent or
  infinity literal); otherwise the column is an object column of strings
  and comparisons are lexicographic, as in pandas.  The default
  `kind="quicksort"` of `sort_values` leaves the order of tied keys
  unspecified, so only tie-order-insensitive sort properties are
  asserted.
* Worksheet level: a `Sheet` holds typed cell values as seen by openpyxl
  after the xlsx round-trip (strings, integers, booleans, empty cells), and
  the styling/width pass of the source is modelled on it.
-/

namespace HMWSSB

/-- A cell of a loaded CSV table: `none` models NaN (missing/empty field),
`some s` a string value as read from the file. -/
abbrev Cell := Option String

/-- A loaded dataframe: an ordered column list and rows of cells, row `i`
holding the value for column `j` at position `j`. -/
structure Table where
  cols : List String
  rows : List (List Cell)
deriving DecidableEq, Repr

/-- A table is well formed when every row has exactly one cell per column;
pandas dataframes are rectangular, so this invariant always holds for loaded
data (spec section 3: all rows share one ordered list of column names). -/
def Table.WF (t : Table) : Prop :=
  ∀ r ∈ t.rows, r.length = t.cols.length

instance (t : Table) : Decidable t.WF := by
  unfold Table.WF; infer_instance

/-- First index of column `c` in a column list, `none` if absent. -/
def colIdx : List String → String → Option Nat
  | [], _ => none
  | s :: ss, c => if s = c then some 0 else (colIdx ss c).map (· + 1)

/-- Value of column `c` in one row laid out along `cols`; `none` when the
column is absent or the row is too short. -/
def cellR (cols : List String) (row : List Cell) (c : String) : Cell :=
  match colIdx cols c with
  | some j => row.getD j none
  | none => none

/-- Value of column `c` in row `i` of a table (the `df.loc` read used by the
proofs; out-of-range reads give `none`). -/
def Table.cell (t : Table) (i : Nat) (c : String) : Cell :=
  cellR t.cols (t.rows.getD i []) c

/-- Embeds `df[df[c] == v]`: the subsequence of rows whose value in column
`c` equals `v` exactly (pandas `==` on strings is exact, case-sensitive
equality, and NaN compares unequal to every string). -/
def partitionByFlag (t : Table) (c v : String) : Table :=
  { cols := t.cols, rows := t.rows.filter (fun r => cellR t.cols r c == some v) }

/-- Digit run to a natural number (`foldl` over base 10). -/
def digitsToNat (ds : List Char) : Nat :=
  ds.foldl (fun a c => a * 10 + (c.toNat - 48)) 0

/-- A float value as parsed by `pd.read_csv`: a finite decimal `fin m k`
denoting `m / 10^k`, or a signed infinity (`"inf"`, `"Infinity"`). -/
inductive PyNum where
  | fin (m : Int) (k : Nat)
  | inf (pos : Bool)
deriving DecidableEq, Repr

/-- Negation of a parsed number, for a leading minus sign. -/
def PyNum.neg : PyNum → PyNum
  | .fin m k => .fin (-m) k
  | .inf b => .inf (!b)

/-- ASCII lower-casing, used for the case-insensitive infinity literals. -/
def lcChar (c : Char) : Char :=
  if 65 ≤ c.toNat && c.toNat ≤ 90 then Char.ofNat (c.toNat + 32) else c

/-- Recognizes the infinity literals `pd.read_csv` accepts (any casing of
`inf` or `infinity`). -/
def isInfStr (cs : List Char) : Bool :=
  (cs.map lcChar == "inf".data) || (cs.map lcChar == "infinity".data)

/-- Parses an exponent suffix: an optional sign followed by digits. -/
def parseExp : List Char → Option Int
  | '-' :: ds =>
    if !ds.isEmpty && ds.all Char.isDigit then some (-(digitsToNat ds : Int)) else none
  | '+' :: ds =>
    if !ds.isEmpty && ds.all Char.isDigit then some ((digitsToNat ds : Int)) else none
  | ds =>
    if !ds.isEmpty && ds.all Char.isDigit then some ((digitsToNat ds : Int)) else none

/-- Applies a power-of-ten exponent to a scaled decimal `m / 10^k`. -/
def applyExp (m : Int) (k : Nat) (e : Int) : PyNum :=
  if 0 ≤ e then
    if k ≤ e.toNat then .fin (m * (10 : Int) ^ (e.toNat - k)) 0 else .fin m (k - e.toNat)
  else .fin m (k + (-e).toNat)

/-- Parses an unsigned numeric literal the way the `read_csv` float
conversion does: digits with optional fractional part and optional exponent
(`"100"`, `"20.5"`, `".5"`, `"1e5"`, `"2.5E-3"`), or an infinity literal;
anything else is non-numeric. -/
def parseUnsigned (cs : List Char) : Option PyNum :=
  if isInfStr cs then some (.inf true)
  else
    let ip := cs.takeWhile Char.isDigit
    match cs.dropWhile Char.isDigit with
    | [] => if ip.isEmpty then none else some (.fin ((digitsToNat ip : Int)) 0)
    | '.' :: rest2 =>
      let fp := rest2.takeWhile Char.isDigit
      if ip.isEmpty && fp.isEmpty then none
      else
        match rest2.dropWhile Char.isDigit with
        | [] => some (.fin ((digitsToNat (ip ++ fp) : Int)) fp.length)
        | 'e' :: es => (parseExp es).map (applyExp ((digitsToNat (ip ++ fp) : Int)) fp.length)
        | 'E' :: es => (parseExp es).map (applyExp ((digitsToNat (ip ++ fp) : Int)) fp.length)
        | _ => none
    | 'e' :: es =>
      if ip.isEmpty then none else (parseExp es).map (applyExp ((digitsToNat ip : Int)) 0)
    | 'E' :: es =>
      if ip.isEmpty then none else (parseExp es).map (applyExp ((digitsToNat ip : Int)) 0)
    | _ => none

/-- Parses a signed numeric literal, as `pd.read_csv` does when deciding
whether a column is numeric. -/
def parseNum (s : String) : Option PyNum :=
  match s.data with
  | '-' :: rest => (parseUnsigned rest).map PyNum.neg
  | '+' :: rest => parseUnsigned rest
  | cs => parseUnsigned cs

/-- The default `na_values` of `pd.read_csv`: a field equal to one of these
strings loads as NaN (missing), whatever the column's dtype ends up being. -/
def naValues : List String :=
  ["", "#N/A", "#N/A N/A", "#NA", "-1.#IND", "-1.#QNAN", "-NaN", "-nan",
   "1.#IND", "1.#QNAN", "<NA>", "N/A", "NA", "NULL", "NaN", "None", "n/a",
   "nan", "null"]

/-- Models dtype inference of `pd.read_csv` for column `c`: the column is
numeric exactly when every present value either loads as NaN (a default
`na_values` string) or parses as a number. -/
def colNumeric (t : Table) (c : String) : Bool :=
  t.rows.all (fun r =>
    match cellR t.cols r c with
    | none => true
    | some s => naValues.contains s || (parseNum s).isSome)

/-- Sort key of one cell: `none` for NaN (sorted last by `na_position`),
`Sum.inl` a parsed number in a numeric column, `Sum.inr` the raw string in an
object column. -/
abbrev SKey := Option (Sum PyNum String)

/-- Value order of parsed numbers, finite values compared by cross
multiplication, `-inf` below and `+inf` above everything. -/
def numLeB : PyNum → PyNum → Bool
  | .fin m1 k1, .fin m2 k2 => decide (m1 * (10 : Int) ^ k2 ≤ m2 * (10 : Int) ^ k1)
  | .fin _ _, .inf b => b
  | .inf b, .fin _ _ => !b
  | .inf b1, .inf b2 => !b1 || b2

/-- Lexicographic code-point comparison of character lists; this is exactly
how Python compares the strings of an object column. -/
def lexLe : List Char → List Char → Bool
  | [], _ => true
  | _ :: _, [] => false
  | a :: as, b :: bs =>
    if a.toNat < b.toNat then true
    else if b.toNat < a.toNat then false
    else lexLe as bs

/-- String comparison used for object columns. -/
def strLeB (s t : String) : Bool := lexLe s.data t.data

/-- Key order for a descending sort: `keyGeB x y` says `x` may come before
`y`, i.e. `x ≥ y` under the column's value order. -/
def keyGeB : Sum PyNum String → Sum PyNum String → Bool
  | Sum.inl x, Sum.inl y => numLeB y x
  | Sum.inr s, Sum.inr t => strLeB t s
  | Sum.inl _, Sum.inr _ => true
  | Sum.inr _, Sum.inl _ => false

/-- Row order of `sort_values(by=c, ascending=False)`: present values in
descending key order, NaN rows last (`na_position="last"`). -/
def descLeB : SKey → SKey → Bool
  | none, none => true
  | none, some _ => false
  | some _, none => true
  | some x, some y => keyGeB x y

/-- Sort key of a row for column `c`, given whether the column's dtype is
numeric.  A present value that is one of the default `na_values` strings
loaded as NaN, so it keys as missing in either column kind (pandas masks NaN
entries of object columns too when sorting). -/
def rowKey (numeric : Bool) (cols : List String) (c : String) (r : List Cell) : SKey :=
  match cellR cols r c with
  | none => none
  | some s =>
    if naValues.contains s then none
    else if numeric then (parseNum s).map Sum.inl else some (Sum.inr s)

/-- Order on list elements induced by a key function; `sort_values` orders
rows by `keyLe (rowKey ...)`. -/
def keyLe {α : Type} (kf : α → SKey) (x y : α) : Prop :=
  descLeB (kf x) (kf y) = true

instance keyLeDecidable {α : Type} (kf : α → SKey) : DecidableRel (keyLe kf) := by
  unfold keyLe; infer_instance

/-- Our ordering on rows as a decidable relation. -/
abbrev rowLe (numeric : Bool) (cols : List String) (c : String) : List Cell → List Cell → Prop :=
  keyLe (rowKey numeric cols c)

/-- Embeds `df.sort_values(by=c, ascending=False)` on a dataframe whose
column `c` has the dtype recorded in `numeric`: the rows come out ordered by
`rowLe` (key descending, NaN rows last, per `na_position="last"`).  The
source uses the default `kind="quicksort"`, which pandas does not guarantee
to be stable, so the relative order of rows with tied keys is unspecified;
the model realises one admissible output with an insertion sort, and only
tie-order-insensitive properties (membership, permutation, sortedness) are
asserted of it. -/
def sortValuesDesc (numeric : Bool) (t : Table) (c : String) : Table :=
  { cols := t.cols, rows := List.insertionSort (rowLe numeric t.cols c) t.rows }

/-- The spec's `sortDescending(table, columnName)` applied to a freshly
loaded table: the dtype is inferred from the table's own column. -/
def sortDescending (t : Table) (c : String) : Table :=
  sortValuesDesc (colNumeric t c) t c

/-- The `GovtCAN_Yes` sheet content: `df[df["ISGOVTCAN"] == "Yes"]` sorted by
`LASTDEMAND` descending.  The dtype of `LASTDEMAND` is the one `read_csv`
inferred on the full table, since filtering does not re-infer dtypes. -/
def govtYes (t : Table) : Table :=
  sortValuesDesc (colNumeric t "LASTDEMAND") (partitionByFlag t "ISGOVTCAN" "Yes") "LASTDEMAND"

/-- The `GovtCAN_No` sheet content, analogous to `govtYes`. -/
def govtNo (t : Table) : Table :=
  sortValuesDesc (colNumeric t "LASTDEMAND") (partitionByFlag t "ISGOVTCAN" "No") "LASTDEMAND"

theorem numLeB_refl (a : PyNum) : numLeB a a = true := by
  cases a with
  | fin m k => simp [numLeB]
  | inf b => cases b <;> rfl

theorem numLeB_total (a b : PyNum) : numLeB a b = true ∨ numLeB b a = true := by
  cases a with
  | fin m1 k1 =>
    cases b with
    | fin m2 k2 =>
      simp only [numLeB, decide_eq_true_eq]
      exact le_total _ _
    | inf b2 => cases b2 <;> simp [numLeB]
  | inf b1 =>
    cases b with
    | fin m2 k2 => cases b1 <;> simp [numLeB]
    | inf b2 => cases b1 <;> cases b2 <;> simp [numLeB]

theorem finLe_trans (m1 m2 m3 : Int) (k1 k2 k3 : Nat)
    (h1 : m1 * (10 : Int) ^ k2 ≤ m2 * (10 : Int) ^ k1)
    (h2 : m2 * (10 : Int) ^ k3 ≤ m3 * (10 : Int) ^ k2) :
    m1 * (10 : Int) ^ k3 ≤ m3 * (10 : Int) ^ k1 := by
  have hp : (0 : Int) < 10 ^ k2 := by positivity
  refine le_of_mul_le_mul_right ?_ hp
  calc m1 * 10 ^ k3 * 10 ^ k2 = m1 * 10 ^ k2 * 10 ^ k3 := by ring
    _ ≤ m2 * 10 ^ k1 * 10 ^ k3 := by
        exact mul_le_mul_of_nonneg_right h1 (by positivity)
    _ = m2 * 10 ^ k3 * 10 ^ k1 := by ring
    _ ≤ m3 * 10 ^ k2 * 10 ^ k1 := by
        exact mul_le_mul_of_nonneg_right h2 (by positivity)
    _ = m3 * 10 ^ k1 * 10 ^ k2 := by ring

theorem numLeB_trans (a b c : PyNum) (h1 : numLeB a b = true) (h2 : numLeB b c = true) :
    numLeB a c = true := by
  cases a with
  | fin m1 k1 =>
    cases b with
    | fin m2 k2 =>
      cases c with
      | fin m3 k3 =>
        simp only [numLeB, decide_eq_true_eq] at h1 h2 ⊢
        exact finLe_trans m1 m2 m3 k1 k2 k3 h1 h2
      | inf b3 => exact h2
    | inf b2 =>
      cases c with
      | fin m3 k3 =>
        simp only [numLeB] at h1 h2
        rw [h1] at h2
        cases h2
      | inf b3 =>
        simp only [numLeB] at h1 h2 ⊢
        rw [h1] at h2
        simpa using h2
  | inf b1 =>
    cases b with
    | fin m2 k2 =>
      cases c with
      | fin m3 k3 => exact h1
      | inf b3 =>
        simp only [numLeB] at h1 ⊢
        simp [h1]
    | inf b2 =>
      cases c with
      | fin m3 k3 =>
        simp only [numLeB] at h1 h2 ⊢
        rcases Bool.or_eq_true_iff.mp h1 with hb | hb
        · exact hb
        · rw [hb] at h2
          cases h2
      | inf b3 =>
        simp only [numLeB] at h1 h2 ⊢
        rcases Bool.or_eq_true_iff.mp h1 with hb | hb
        · simp [hb]
        · rw [hb] at h2
          have hb3 : b3 = true := by simpa using h2
          simp [hb3]

theorem lexLe_refl (x : List Char) : lexLe x x = true := by
  induction x with
  | nil => rfl
  | cons a as ih => simp [lexLe, ih]

theorem lexLe_total (x : List Char) : ∀ y, lexLe x y = true ∨ lexLe y x = true := by
  induction x with
  | nil => intro y; left; rfl
  | cons a as ih =>
    intro y
    cases y with
    | nil => right; rfl
    | cons b bs =>
      by_cases h1 : a.toNat < b.toNat
      · left; simp [lexLe, h1]
      · by_cases h2 : b.toNat < a.toNat
        · right; simp [lexLe, h2]
        · have := ih bs
          simpa [lexLe, h1, h2] using this

theorem lexLe_trans (x : List Char) :
    ∀ y z, lexLe x y = true → lexLe y z = true → lexLe x z = true := by
  induction x with
  | nil => intro y z _ _; rfl
  | cons a as ih =>
    intro y z h1 h2
    cases y with
    | nil => simp [lexLe] at h1
    | cons b bs =>
      cases z with
      | nil => simp [lexLe] at h2
      | cons c cs =>
        simp only [lexLe] at h1 h2 ⊢
        by_cases hab : a.toNat < b.toNat
        · by_cases hbc : b.toNat < c.toNat
          · have hac : a.toNat < c.toNat := by omega
            simp [hac]
          · by_cases hcb : c.toNat < b.toNat
            · rw [if_neg hbc, if_pos hcb] at h2
              exact absurd h2 (by simp)
            · have hac : a.toNat < c.toNat := by omega
              simp [hac]
        · by_cases hba : b.toNat < a.toNat
          · rw [if_neg hab, if_pos hba] at h1
            exact absurd h1 (by simp)
          · rw [if_neg hab, if_neg hba] at h1
            by_cases hbc : b.toNat < c.toNat
            · have hac : a.toNat < c.toNat := by omega
              simp [hac]
            · by_cases hcb : c.toNat < b.toNat
              · rw [if_neg hbc, if_pos hcb] at h2
                exact absurd h2 (by simp)
              · rw [if_neg hbc, if_neg hcb] at h2
                have hac : ¬ a.toNat < c.toNat := by omega
                have hca : ¬ c.toNat < a.toNat := by omega
                rw [if_neg hac, if_neg hca]
                exact ih bs cs h1 h2

theorem keyGeB_refl (x : Sum PyNum String) : keyGeB x x = true := by
  cases x with
  | inl a => exact numLeB_refl a
  | inr s => exact lexLe_refl s.data

theorem keyGeB_total (x y : Sum PyNum String) :
    keyGeB x y = true ∨ keyGeB y x = true := by
  cases x <;> cases y <;> simp [keyGeB]
  · exact (numLeB_total _ _).symm
  · exact (lexLe_total _ _).symm

theorem keyGeB_trans (x y z : Sum PyNum String)
    (h1 : keyGeB x y = true) (h2 : keyGeB y z = true) : keyGeB x z = true := by
  cases x <;> cases y <;> cases z <;> simp_all [keyGeB, strLeB]
  · exact numLeB_trans _ _ _ h2 h1
  · exact lexLe_trans _ _ _ h2 h1

theorem descLeB_refl (k : SKey) : descLeB k k = true := by
  cases k with
  | none => rfl
  | some x => exact keyGeB_refl x

theorem descLeB_total (k1 k2 : SKey) : descLeB k1 k2 = true ∨ descLeB k2 k1 = true := by
  cases k1 <;> cases k2 <;> simp [descLeB]
  exact keyGeB_total _ _

theorem descLeB_trans (k1 k2 k3 : SKey)
    (h1 : descLeB k1 k2 = true) (h2 : descLeB k2 k3 = true) : descLeB k1 k3 = true := by
  cases k1 <;> cases k2 <;> cases k3 <;> simp_all [descLeB]
  exact keyGeB_trans _ _ _ h1 h2

instance keyLeTotal {α : Type} (kf : α → SKey) : IsTotal α (keyLe kf) :=
  ⟨fun x y => descLeB_total (kf x) (kf y)⟩

instance keyLeTrans {α : Type} (kf : α → SKey) : IsTrans α (keyLe kf) :=
  ⟨fun _ _ _ h1 h2 => descLeB_trans _ _ _ h1 h2⟩

/-- Sanity check: the end-to-end scenario of spec section 8 on the
`GovtCAN_Yes` side. -/
theorem sanity_scenario_yes :
    (govtYes { cols := ["ISGOVTCAN", "DIVNCODE", "LASTDEMAND"],
               rows := [[some "Yes", some "1", some "100"],
                        [some "No", some "2", some "50"],
                        [some "Yes", some "3", some "200"]] }).rows =
    [[some "Yes", some "3", some "200"], [some "Yes", some "1", some "100"]] := by
  decide

/-- Sanity check: the `GovtCAN_No` side of the same scenario. -/
theorem sanity_scenario_no :
    (govtNo { cols := ["ISGOVTCAN", "DIVNCODE", "LASTDEMAND"],
              rows := [[some "Yes", some "1", some "100"],
                       [some "No", some "2", some "50"],
                       [some "Yes", some "3", some "200"]] }).rows =
    [[some "No", some "2", some "50"]] := by
  decide

/-- Sanity check: an object column (one non-numeric value) sorts its strings
lexicographically, and NaN still goes last. -/
theorem sanity_object_sort :
    (sortDescending { cols := ["LASTDEMAND"],
                      rows := [[some "9"], [none], [some "100"], [some "x"]] }
      "LASTDEMAND").rows =
    [[some "x"], [some "9"], [some "100"], [none]] := by
  decide

/-- Sanity check: an all-numeric column sorts numerically descending with
NaN last. -/
theorem sanity_numeric_sort :
    (sortDescending { cols := ["LASTDEMAND"],
                      rows := [[some "9"], [none], [some "100"], [some "20.5"]] }
      "LASTDEMAND").rows =
    [[some "100"], [some "20.5"], [some "9"], [none]] := by
  decide

/-- Numeric reading of a row's value in column `c`, ignoring the column
dtype: `none` when the value is missing or does not parse as a number.  This
is the reading the spec's sentence about `sortDescending` uses. -/
def specNumKey (cols : List String) (c : String) (r : List Cell) : Option PyNum :=
  match cellR cols r c with
  | none => none
  | some s => parseNum s

/-- Modelled from the spec's words for claim C2: a pair of output rows is
acceptable when both are numeric and descending, or the earlier one is
numeric, or both are non-numeric/missing; a non-numeric row strictly before a
numeric row violates the claim. -/
def specPairOkB (cols : List String) (c : String) (r1 r2 : List Cell) : Bool :=
  match specNumKey cols c r1, specNumKey cols c r2 with
  | some a, some b => numLeB b a
  | none, some _ => false
  | _, none => true

/-- Modelled from the spec's words for claim C2: the rows are ordered by the
column interpreted numerically, descending, with every non-numeric/missing
row after all numerically-valued rows. -/
def specDescNumericLast (cols : List String) (c : String) (rows : List (List Cell)) : Prop :=
  List.Pairwise (fun r1 r2 => specPairOkB cols c r1 r2 = true) rows

instance (cols : List String) (c : String) (rows : List (List Cell)) :
    Decidable (specDescNumericLast cols c rows) := by
  unfold specDescNumericLast; infer_instance

/-- Sanity check: exponent literals are numeric to `read_csv`, so `"1e5"`
sorts above `"20"` numerically, not lexicographically. -/
theorem sanity_exp_sort :
    (sortDescending { cols := ["LASTDEMAND"], rows := [[some "20"], [some "1e5"]] }
      "LASTDEMAND").rows = [[some "1e5"], [some "20"]] := by
  decide

/-- Sanity check: infinity literals are numeric and rank above every finite
value, while NaN still sorts last. -/
theorem sanity_inf_sort :
    (sortDescending { cols := ["LASTDEMAND"],
                      rows := [[some "5"], [some "inf"], [none]] }
      "LASTDEMAND").rows = [[some "inf"], [some "5"], [none]] := by
  decide

/-- Sanity check: a default `na_values` string such as `"NaN"` loads as
missing, so `["NaN", "5"]` is a numeric column with the NaN row last — not
an object column with the string `"NaN"` first. -/
theorem sanity_na_sort :
    (sortDescending { cols := ["LASTDEMAND"], rows := [[some "NaN"], [some "5"]] }
      "LASTDEMAND").rows = [[some "5"], [some "NaN"]] := by
  decide

/-- Sanity check: a fractional literal with a negative exponent parses to
the expected scaled decimal, and a signed infinity parses. -/
theorem sanity_parse_forms :
    parseNum "2.5E-3" = some (PyNum.fin 25 4)
    ∧ parseNum "-inf" = some (PyNum.inf false)
    ∧ parseNum "1e5" = some (PyNum.fin 100000 0)
    ∧ parseNum "x" = none := by
  refine ⟨by decide, by decide, by decide, by decide⟩

/-- A one-column table whose `LASTDEMAND` column contains a non-numeric
value, so `read_csv` types the whole column as strings. -/
def tMixed : Table :=
  { cols := ["LASTDEMAND"], rows := [[some "9"], [some "100"], [some "x"]] }

/-- Claim C2 is false as stated: on a column containing a non-numeric value,
`sort_values` compares the values as strings, so the output is
`["x", "9", "100"]` — the non-numeric row comes first, not last, and the
numeric-looking rows are in lexicographic rather than numeric order. -/
theorem sortDescending_claim_counterexample :
    (sortDescending tMixed "LASTDEMAND").rows = [[some "x"], [some "9"], [some "100"]]
    ∧ ¬ specDescNumericLast ["LASTDEMAND"] "LASTDEMAND"
        ((sortDescending tMixed "LASTDEMAND").rows) := by
  constructor
  · decide
  · decide

/-- Claim C2, amended: `sortDescending` returns a permutation of the rows
ordered by the column's values — numerically (including exponent and
infinity literals) when every present, non-NA value of the column parses as
a number, and lexicographically as strings otherwise — with missing values
and default-`na_values` cells last; the relative order of rows with tied
keys is not specified by the code (the default `kind="quicksort"` of
`sort_values` is not stable). -/
theorem sortDescending_spec (t : Table) (c : String) :
    (sortDescending t c).cols = t.cols
    ∧ List.Perm (sortDescending t c).rows t.rows
    ∧ List.Sorted (rowLe (colNumeric t c) t.cols c) (sortDescending t c).rows :=
  ⟨rfl, List.perm_insertionSort _ _, List.sorted_insertionSort _ _⟩

/-- Disjoint filters concatenated are, up to permutation, the filter of the
disjunction (the partition has no overlap, so no row is counted twice). -/
theorem filter_append_perm_filter_or {α : Type} (p q : α → Bool)
    (h : ∀ a, p a = true → q a = false) (l : List α) :
    List.Perm (l.filter p ++ l.filter q) (l.filter (fun a => p a || q a)) := by
  induction l with
  | nil => simp
  | cons a l ih =>
    by_cases hp : p a = true
    · have hq := h a hp
      simp only [List.filter_cons, hp, hq, if_pos, Bool.true_or, List.cons_append]
      simpa using ih.cons a
    · have hp2 : p a = false := by simpa using hp
      by_cases hq : q a = true
      · simp only [List.filter_cons, hp2, hq, Bool.false_or]
        simp only [Bool.false_eq_true, if_false, if_pos]
        exact List.perm_middle.trans (ih.cons a)
      · have hq2 : q a = false := by simpa using hq
        simp only [List.filter_cons, hp2, hq2, Bool.false_or, Bool.false_eq_true, if_false]
        exact ih

/-- A one-row table whose `ISGOVTCAN` flag is neither `"Yes"` nor `"No"`. -/
def tMaybe : Table :=
  { cols := ["ISGOVTCAN", "DIVNCODE", "LASTDEMAND"],
    rows := [[some "Maybe", some "1", some "5"]] }

/-- Claim C1 is false as stated: a row whose flag is `"Maybe"` lands in
neither partition, so the union of the two sorted sets is empty and not a
permutation of the original rows. -/
theorem partition_union_counterexample :
    ¬ List.Perm ((govtYes tMaybe).rows ++ (govtNo tMaybe).rows) tMaybe.rows := by
  intro h
  have hlen := h.length_eq
  revert hlen
  decide

/-- Claim C1, amended: the sorted `"Yes"` set followed by the sorted `"No"`
set is, as a multiset, exactly the subsequence of original rows whose
`ISGOVTCAN` is `"Yes"` or `"No"`; rows with any other flag value are
dropped. -/
theorem partition_sort_union_perm (t : Table) :
    List.Perm ((govtYes t).rows ++ (govtNo t).rows)
      (t.rows.filter (fun r =>
        cellR t.cols r "ISGOVTCAN" == some "Yes"
          || cellR t.cols r "ISGOVTCAN" == some "No")) := by
  have hy : List.Perm (govtYes t).rows
      (t.rows.filter (fun r => cellR t.cols r "ISGOVTCAN" == some "Yes")) :=
    List.perm_insertionSort _ _
  have hn : List.Perm (govtNo t).rows
      (t.rows.filter (fun r => cellR t.cols r "ISGOVTCAN" == some "No")) :=
    List.perm_insertionSort _ _
  refine (hy.append hn).trans ?_
  refine filter_append_perm_filter_or _ _ ?_ t.rows
  intro r hr
  have : cellR t.cols r "ISGOVTCAN" = some "Yes" := by
    simpa using hr
  simp [this]

/-- Membership in the `GovtCAN_Yes` sheet is membership in the filtered
rows. -/
theorem mem_govtYes (t : Table) (r : List Cell) :
    r ∈ (govtYes t).rows ↔
      r ∈ t.rows ∧ (cellR t.cols r "ISGOVTCAN" == some "Yes") = true := by
  unfold govtYes sortValuesDesc partitionByFlag
  rw [(List.perm_insertionSort _ _).mem_iff, List.mem_filter]

/-- Membership in the `GovtCAN_No` sheet is membership in the filtered
rows. -/
theorem mem_govtNo (t : Table) (r : List Cell) :
    r ∈ (govtNo t).rows ↔
      r ∈ t.rows ∧ (cellR t.cols r "ISGOVTCAN" == some "No") = true := by
  unfold govtNo sortValuesDesc partitionByFlag
  rw [(List.perm_insertionSort _ _).mem_iff, List.mem_filter]

/-- Claim C10: the partition predicate is exact, case-sensitive string
equality on `ISGOVTCAN`.  A row flagged exactly `"Yes"` appears in the
`GovtCAN_Yes` sheet; every row of that sheet is flagged exactly `"Yes"`
(and likewise for `"No"`); and a row flagged anything else (for example
`"yes"`, `"YES"`, `"Y"`, empty or missing) appears in neither sheet — it is
silently dropped. -/
theorem partition_exact_flag_match (t : Table) (r : List Cell) :
    (cellR t.cols r "ISGOVTCAN" = some "Yes" → r ∈ t.rows → r ∈ (govtYes t).rows)
    ∧ (r ∈ (govtYes t).rows → cellR t.cols r "ISGOVTCAN" = some "Yes")
    ∧ (r ∈ (govtNo t).rows → cellR t.cols r "ISGOVTCAN" = some "No")
    ∧ (cellR t.cols r "ISGOVTCAN" ≠ some "Yes" → cellR t.cols r "ISGOVTCAN" ≠ some "No" →
        r ∉ (govtYes t).rows ∧ r ∉ (govtNo t).rows) := by
  refine ⟨?_, ?_, ?_, ?_⟩
  · intro hflag hmem
    rw [mem_govtYes]
    exact ⟨hmem, by simp [hflag]⟩
  · intro hmem
    have := (mem_govtYes t r).mp hmem
    simpa using this.2
  · intro hmem
    have := (mem_govtNo t r).mp hmem
    simpa using this.2
  · intro hyes hno
    constructor
    · intro hmem
      exact hyes (by simpa using ((mem_govtYes t r).mp hmem).2)
    · intro hmem
      exact hno (by simpa using ((mem_govtNo t r).mp hmem).2)

/-- A one-row table whose flag is lowercase `"yes"`. -/
def tLower : Table :=
  { cols := ["ISGOVTCAN", "DIVNCODE", "LASTDEMAND"],
    rows := [[some "yes", some "1", some "5"]] }

/-- Witness for claim C10 at a concrete input: a lowercase `"yes"` row is in
neither sheet. -/
theorem partition_exact_flag_match_witness :
    cellR tLower.cols [some "yes", some "1", some "5"] "ISGOVTCAN" ≠ some "Yes"
    ∧ cellR tLower.cols [some "yes", some "1", some "5"] "ISGOVTCAN" ≠ some "No"
    ∧ ([some "yes", some "1", some "5"] ∉ (govtYes tLower).rows
        ∧ [some "yes", some "1", some "5"] ∉ (govtNo tLower).rows) :=
  ⟨by decide, by decide,
    (partition_exact_flag_match tLower [some "yes", some "1", some "5"]).2.2.2
      (by decide) (by decide)⟩

/-- The error type of the transform core; the source raises `ValueError`,
which the spec's taxonomy calls `SchemaError`, for missing columns. -/
inductive Err where
  | schemaError (msg : String)
deriving DecidableEq, Repr

/-- The three columns `process_and_format` requires. -/
def requiredCols : List String := ["ISGOVTCAN", "DIVNCODE", "LASTDEMAND"]

/-- Python `str` of a list of strings, as interpolated by the f-string of the
source's error message. -/
def pyListRepr (xs : List String) : String :=
  "[" ++ String.intercalate ", " (xs.map (fun s => "\x27" ++ s ++ "\x27")) ++ "]"

/-- Embeds the column check of `process_and_format`: `if not all(col in
df.columns for col in required_cols): raise ValueError(f"Required columns
{required_cols} do not exist in the dataset.")`. -/
def requireColumns (t : Table) (req : List String) : Except Err Unit :=
  if req.all (fun c => decide (c ∈ t.cols)) then Except.ok ()
  else Except.error (Err.schemaError
    ("Required columns " ++ pyListRepr req ++ " do not exist in the dataset."))

/-- Claim C3: `requireColumns` on the required names succeeds exactly when
every required column is present — independently of the rows, hence of the
row count — and on failure the error is a `SchemaError` whose message
mentions (contains as a substring) every missing column name. -/
theorem requireColumns_spec (t : Table) :
    ((requireColumns t requiredCols = Except.ok ()) ↔ ∀ c ∈ requiredCols, c ∈ t.cols)
    ∧ ((∃ e, requireColumns t requiredCols = Except.error e) ↔ ∃ c ∈ requiredCols, c ∉ t.cols)
    ∧ (∀ c ∈ requiredCols, c ∉ t.cols →
        ∃ m, requireColumns t requiredCols = Except.error (Err.schemaError m)
          ∧ List.IsInfix c.data m.data) := by
  by_cases h : requiredCols.all (fun c => decide (c ∈ t.cols)) = true
  · have hall : ∀ c ∈ requiredCols, c ∈ t.cols := by
      intro c hc
      have := (List.all_eq_true.mp h) c hc
      simpa using this
    refine ⟨by simp [requireColumns, h]; exact hall, ?_, ?_⟩
    · simp only [requireColumns, h, if_pos]
      constructor
      · rintro ⟨e, he⟩
        cases he
      · rintro ⟨c, hc, habs⟩
        exact absurd (hall c hc) habs
    · intro c hc habs
      exact absurd (hall c hc) habs
  · have hne : requireColumns t requiredCols = Except.error (Err.schemaError
        ("Required columns " ++ pyListRepr requiredCols ++ " do not exist in the dataset.")) := by
      simp [requireColumns, h]
    have hmiss : ∃ c ∈ requiredCols, c ∉ t.cols := by
      by_contra habs
      push_neg at habs
      exact h (List.all_eq_true.mpr (fun c hc => by simpa using habs c hc))
    refine ⟨?_, ?_, ?_⟩
    · rw [hne]
      constructor
      · intro he
        cases he
      · intro hall
        obtain ⟨c, hc, hcm⟩ := hmiss
        exact absurd (hall c hc) hcm
    · exact ⟨fun _ => hmiss, fun _ => ⟨_, hne⟩⟩
    · intro c hc _
      refine ⟨_, hne, ?_⟩
      have hc2 : c = "ISGOVTCAN" ∨ c = "DIVNCODE" ∨ c = "LASTDEMAND" := by
        simpa [requiredCols] using hc
      rcases hc2 with rfl | rfl | rfl
      · decide
      · decide
      · decide

/-- A table missing the `LASTDEMAND` column (and with zero rows, exercising
the row-count independence). -/
def tMissing : Table := { cols := ["ISGOVTCAN", "DIVNCODE"], rows := [] }

/-- Witness for claim C3 at a concrete input: with `LASTDEMAND` absent the
check fails with a `SchemaError` whose message contains `LASTDEMAND`. -/
theorem requireColumns_spec_witness :
    ("LASTDEMAND" ∈ requiredCols ∧ "LASTDEMAND" ∉ tMissing.cols)
    ∧ ∃ m, requireColumns tMissing requiredCols = Except.error (Err.schemaError m)
        ∧ List.IsInfix "LASTDEMAND".data m.data :=
  ⟨⟨by decide, by decide⟩,
    (requireColumns_spec tMissing).2.2 "LASTDEMAND" (by decide) (by decide)⟩

theorem colIdx_lt {cols : List String} {c : String} {j : Nat}
    (h : colIdx cols c = some j) : j < cols.length := by
  induction cols generalizing j with
  | nil => simp [colIdx] at h
  | cons s ss ih =>
    simp only [colIdx] at h
    by_cases hs : s = c
    · rw [if_pos hs] at h
      cases h
      simp only [List.length_cons]
      omega
    · rw [if_neg hs] at h
      cases hcs : colIdx ss c with
      | none => rw [hcs] at h; simp at h
      | some j0 =>
        rw [hcs] at h
        simp only [Option.map_some', Option.some.injEq] at h
        subst h
        have := ih hcs
        simp only [List.length_cons]
        omega

theorem colIdx_getD {cols : List String} {c : String} {j : Nat}
    (h : colIdx cols c = some j) : cols.getD j "" = c := by
  induction cols generalizing j with
  | nil => simp [colIdx] at h
  | cons s ss ih =>
    simp only [colIdx] at h
    by_cases hs : s = c
    · rw [if_pos hs] at h
      cases h
      exact hs
    · rw [if_neg hs] at h
      cases hcs : colIdx ss c with
      | none => rw [hcs] at h; simp at h
      | some j0 =>
        rw [hcs] at h
        simp only [Option.map_some', Option.some.injEq] at h
        subst h
        exact ih hcs

theorem colIdx_none_iff {cols : List String} {c : String} :
    colIdx cols c = none ↔ c ∉ cols := by
  induction cols with
  | nil => simp [colIdx]
  | cons s ss ih =>
    simp only [colIdx]
    by_cases hs : s = c
    · simp [hs]
    · rw [if_neg hs]
      rw [Option.map_eq_none', ih]
      simp only [List.mem_cons]
      constructor
      · intro hns h2
        rcases h2 with rfl | hin
        · exact hs rfl
        · exact hns hin
      · intro hnc hin
        exact hnc (Or.inr hin)

theorem colIdx_append_left {xs : List String} (ys : List String) {c : String} {j : Nat}
    (h : colIdx xs c = some j) : colIdx (xs ++ ys) c = some j := by
  induction xs generalizing j with
  | nil => simp [colIdx] at h
  | cons s ss ih =>
    rw [List.cons_append]
    simp only [colIdx] at h ⊢
    by_cases hs : s = c
    · rw [if_pos hs] at h ⊢
      exact h
    · rw [if_neg hs] at h ⊢
      cases hcs : colIdx ss c with
      | none => rw [hcs] at h; simp at h
      | some j0 =>
        rw [hcs] at h
        rw [ih hcs]
        exact h

theorem colIdx_append_right {xs : List String} {ys : List String} {c : String} {j : Nat}
    (hx : c ∉ xs) (h : colIdx ys c = some j) :
    colIdx (xs ++ ys) c = some (xs.length + j) := by
  induction xs with
  | nil => simpa using h
  | cons s ss ih =>
    have hs : s ≠ c := fun he => hx (by simp [he])
    have hss : c ∉ ss := fun he => hx (by simp [he])
    rw [List.cons_append]
    simp only [colIdx, if_neg hs]
    rw [ih hss]
    simp only [Option.map_some', Option.some.injEq, List.length_cons]
    omega

theorem cellR_of_colIdx_some {cols : List String} {c : String} {j : Nat}
    (h : colIdx cols c = some j) (row : List Cell) :
    cellR cols row c = row.getD j none := by
  unfold cellR
  rw [h]

theorem cellR_of_colIdx_none {cols : List String} {c : String}
    (h : colIdx cols c = none) (row : List Cell) :
    cellR cols row c = none := by
  unfold cellR
  rw [h]

theorem colIdx_ne_of_ne {cols : List String} {c1 c2 : String} {j1 j2 : Nat}
    (hne : c1 ≠ c2) (h1 : colIdx cols c1 = some j1) (h2 : colIdx cols c2 = some j2) :
    j1 ≠ j2 := by
  intro he
  subst he
  exact hne ((colIdx_getD h1).symm.trans (colIdx_getD h2))

/-- Embeds the scalar column assignment `df[c] = v`: if the column exists it
is overwritten in place, otherwise it is appended; every row receives the
value.  The source does not guard against an existing column. -/
def setColumn (t : Table) (c v : String) : Table :=
  match colIdx t.cols c with
  | some j => { cols := t.cols, rows := t.rows.map (fun r => r.set j (some v)) }
  | none => { cols := t.cols ++ [c], rows := t.rows.map (fun r => r ++ [some v]) }

/-- Lays a row out along a target column list, as `pd.concat` aligns columns
by name; columns the row's table lacks become NaN. -/
def reindex (cols newCols : List String) (r : List Cell) : List Cell :=
  newCols.map (fun c => cellR cols r c)

/-- Embeds `pd.concat([A, B], ignore_index=True)`: the result's columns are
A's columns followed by B's columns not already present, and the rows are
A's rows followed by B's rows, aligned by column name. -/
def concatTables (A B : Table) : Table :=
  let cs := A.cols ++ B.cols.filter (fun c => decide (c ∉ A.cols))
  { cols := cs,
    rows := A.rows.map (fun r => reindex A.cols cs r)
         ++ B.rows.map (fun r => reindex B.cols cs r) }

/-- Embeds the tagging-and-concatenation step of `process_combined_files`:
`df_a[c] = la; df_b[c] = lb; pd.concat([df_a, df_b], ignore_index=True)`. -/
def annotateAndConcat (A B : Table) (c la lb : String) : Table :=
  concatTables (setColumn A c la) (setColumn B c lb)

theorem setColumn_rows_length (t : Table) (c v : String) :
    (setColumn t c v).rows.length = t.rows.length := by
  unfold setColumn
  cases colIdx t.cols c <;> simp

theorem setColumn_WF (t : Table) (c v : String) (h : t.WF) : (setColumn t c v).WF := by
  unfold setColumn
  cases colIdx t.cols c with
  | none =>
    intro r hr
    simp only [List.mem_map] at hr
    obtain ⟨r0, hr0, rfl⟩ := hr
    simp [h r0 hr0]
  | some j =>
    intro r hr
    simp only [List.mem_map] at hr
    obtain ⟨r0, hr0, rfl⟩ := hr
    simp [h r0 hr0]

theorem getD_map_lt {α β : Type} (f : α → β) (l : List α) (i : Nat) (d : β) (d0 : α)
    (h : i < l.length) : (l.map f).getD i d = f (l.getD i d0) := by
  rw [List.getD_eq_getElem?_getD, List.getElem?_map, List.getElem?_eq_getElem h,
    List.getD_eq_getElem?_getD, List.getElem?_eq_getElem h]
  rfl

theorem getD_map_ge {α β : Type} (f : α → β) (l : List α) (i : Nat) (d : β)
    (h : l.length ≤ i) : (l.map f).getD i d = d := by
  rw [List.getD_eq_getElem?_getD, List.getElem?_map]
  rw [List.getElem?_eq_none (by simpa using h)]
  rfl

theorem getD_rows_mem (t : Table) (h : t.WF) (i : Nat) (hi : i < t.rows.length) :
    (t.rows.getD i []).length = t.cols.length := by
  refine h _ ?_
  rw [List.getD_eq_getElem?_getD, List.getElem?_eq_getElem hi]
  exact List.getElem_mem hi

theorem setColumn_cell_self (t : Table) (c v : String) (h : t.WF) (i : Nat)
    (hi : i < t.rows.length) : (setColumn t c v).cell i c = some v := by
  have hrowlen : (t.rows.getD i []).length = t.cols.length := getD_rows_mem t h i hi
  unfold setColumn
  cases hci : colIdx t.cols c with
  | some j =>
    have hj : j < t.cols.length := colIdx_lt hci
    show cellR t.cols ((t.rows.map (fun r => r.set j (some v))).getD i []) c = some v
    rw [getD_map_lt _ _ i [] [] hi]
    rw [cellR_of_colIdx_some hci]
    rw [List.getD_eq_getElem?_getD,
      List.getElem?_set_eq_of_lt (some v) (by rw [hrowlen]; exact hj)]
    rfl
  | none =>
    have hnm : c ∉ t.cols := colIdx_none_iff.mp hci
    have hci2 : colIdx (t.cols ++ [c]) c = some (t.cols.length + 0) :=
      colIdx_append_right hnm (by simp [colIdx])
    show cellR (t.cols ++ [c]) ((t.rows.map (fun r => r ++ [some v])).getD i []) c = some v
    rw [getD_map_lt _ _ i [] [] hi]
    rw [cellR_of_colIdx_some hci2]
    rw [List.getD_eq_getElem?_getD,
      List.getElem?_append_right
        (show (t.rows.getD i []).length ≤ t.cols.length + 0 by rw [hrowlen]; omega)]
    rw [hrowlen]
    simp

theorem cellR_append_col (cols : List String) (c c2 : String) (hne : c2 ≠ c)
    (row : List Cell) : cellR (cols ++ [c]) row c2 = cellR cols row c2 := by
  cases hci2 : colIdx cols c2 with
  | none =>
    have hnm2 : c2 ∉ cols ++ [c] := by
      simp only [List.mem_append, List.mem_singleton]
      rintro (hin | rfl)
      · exact (colIdx_none_iff.mp hci2) hin
      · exact hne rfl
    rw [cellR_of_colIdx_none (colIdx_none_iff.mpr hnm2), cellR_of_colIdx_none hci2]
  | some j2 =>
    rw [cellR_of_colIdx_some (colIdx_append_left [c] hci2),
      cellR_of_colIdx_some hci2]

theorem setColumn_cell_other (t : Table) (c v c2 : String) (hne : c2 ≠ c) (h : t.WF)
    (i : Nat) : (setColumn t c v).cell i c2 = t.cell i c2 := by
  by_cases hi : i < t.rows.length
  · have hrowlen : (t.rows.getD i []).length = t.cols.length := getD_rows_mem t h i hi
    unfold setColumn
    cases hci : colIdx t.cols c with
    | some j =>
      show cellR t.cols ((t.rows.map (fun r => r.set j (some v))).getD i []) c2 =
        t.cell i c2
      rw [getD_map_lt _ _ i [] [] hi]
      unfold Table.cell
      cases hci2 : colIdx t.cols c2 with
      | none =>
        rw [cellR_of_colIdx_none hci2, cellR_of_colIdx_none hci2]
      | some j2 =>
        have hjne : j ≠ j2 := colIdx_ne_of_ne (fun he => hne he.symm) hci hci2
        rw [cellR_of_colIdx_some hci2, cellR_of_colIdx_some hci2]
        rw [List.getD_eq_getElem?_getD, List.getElem?_set_ne hjne]
        exact (List.getD_eq_getElem?_getD _ _ _).symm
    | none =>
      show cellR (t.cols ++ [c]) ((t.rows.map (fun r => r ++ [some v])).getD i []) c2 =
        t.cell i c2
      rw [getD_map_lt _ _ i [] [] hi]
      rw [cellR_append_col t.cols c c2 hne]
      unfold Table.cell
      cases hci2 : colIdx t.cols c2 with
      | none =>
        rw [cellR_of_colIdx_none hci2, cellR_of_colIdx_none hci2]
      | some j2 =>
        have hj2 : j2 < t.cols.length := colIdx_lt hci2
        rw [cellR_of_colIdx_some hci2, cellR_of_colIdx_some hci2]
        rw [List.getD_eq_getElem?_getD,
          List.getElem?_append_left (by rw [hrowlen]; exact hj2)]
        exact (List.getD_eq_getElem?_getD _ _ _).symm
  · have hge : t.rows.length ≤ i := by omega
    unfold setColumn
    have hrows : ∀ f : List Cell → List Cell, (t.rows.map f).getD i [] = [] :=
      fun f => getD_map_ge f _ i [] (by simpa using hge)
    have hnil : t.rows.getD i [] = [] := by
      rw [List.getD_eq_getElem?_getD, List.getElem?_eq_none (by simpa using hge)]
      rfl
    cases colIdx t.cols c with
    | some j =>
      show cellR t.cols ((t.rows.map (fun r => r.set j (some v))).getD i []) c2 =
        cellR t.cols (t.rows.getD i []) c2
      rw [hrows, hnil]
    | none =>
      show cellR (t.cols ++ [c]) ((t.rows.map (fun r => r ++ [some v])).getD i []) c2 =
        cellR t.cols (t.rows.getD i []) c2
      rw [hrows, hnil]
      exact cellR_append_col t.cols c c2 hne []

theorem cellR_reindex (cols cs : List String) (row : List Cell) (c : String)
    (h : c ∈ cols → c ∈ cs) : cellR cs (reindex cols cs row) c = cellR cols row c := by
  cases hci : colIdx cs c with
  | none =>
    have hnc : c ∉ cols := fun hin => (colIdx_none_iff.mp hci) (h hin)
    rw [cellR_of_colIdx_none hci, cellR_of_colIdx_none (colIdx_none_iff.mpr hnc)]
  | some j =>
    have hj : j < cs.length := colIdx_lt hci
    have hcsj : cs.getD j "" = c := colIdx_getD hci
    rw [cellR_of_colIdx_some hci]
    unfold reindex
    rw [getD_map_lt _ _ j none "" hj, hcsj]

theorem concat_rows_length (A B : Table) :
    (concatTables A B).rows.length = A.rows.length + B.rows.length := by
  unfold concatTables
  simp

theorem concat_cell_left (A B : Table) (i : Nat) (hi : i < A.rows.length) (c : String) :
    (concatTables A B).cell i c = cellR A.cols (A.rows.getD i []) c := by
  unfold concatTables Table.cell
  simp only
  rw [List.getD_eq_getElem?_getD, List.getElem?_append_left (by simpa using hi),
    ← List.getD_eq_getElem?_getD _ _ ([] : List Cell), getD_map_lt _ _ i [] [] hi]
  exact cellR_reindex A.cols _ _ c (fun hin => List.mem_append_left _ hin)

theorem concat_cell_right (A B : Table) (j : Nat) (hj : j < B.rows.length) (c : String) :
    (concatTables A B).cell (A.rows.length + j) c = cellR B.cols (B.rows.getD j []) c := by
  unfold concatTables Table.cell
  simp only
  rw [List.getD_eq_getElem?_getD, List.getElem?_append_right
    (show (A.rows.map (fun r => reindex A.cols (A.cols ++ B.cols.filter
      (fun c2 => decide (c2 ∉ A.cols))) r)).length ≤ A.rows.length + j by
        simp)]
  simp only [List.length_map, Nat.add_sub_cancel_left]
  rw [← List.getD_eq_getElem?_getD _ _ ([] : List Cell), getD_map_lt _ _ j [] [] hj]
  refine cellR_reindex B.cols _ _ c ?_
  intro hB
  by_cases hA : c ∈ A.cols
  · exact List.mem_append_left _ hA
  · exact List.mem_append_right _ (List.mem_filter.mpr ⟨hB, by simpa using hA⟩)

theorem annotateAndConcat_rows_length (A B : Table) (c la lb : String) :
    (annotateAndConcat A B c la lb).rows.length = A.rows.length + B.rows.length := by
  unfold annotateAndConcat
  rw [concat_rows_length, setColumn_rows_length, setColumn_rows_length]

theorem annotateAndConcat_cell_la (A B : Table) (c la lb : String) (hA : A.WF)
    (i : Nat) (hi : i < A.rows.length) :
    (annotateAndConcat A B c la lb).cell i c = some la := by
  unfold annotateAndConcat
  have hi2 : i < (setColumn A c la).rows.length := by
    rw [setColumn_rows_length]; exact hi
  rw [concat_cell_left _ _ i hi2 c]
  exact setColumn_cell_self A c la hA i hi

theorem annotateAndConcat_cell_lb (A B : Table) (c la lb : String)
    (hB : B.WF) (j : Nat) (hj : j < B.rows.length) :
    (annotateAndConcat A B c la lb).cell (A.rows.length + j) c = some lb := by
  unfold annotateAndConcat
  have hj2 : j < (setColumn B c lb).rows.length := by
    rw [setColumn_rows_length]; exact hj
  have hlen : A.rows.length = (setColumn A c la).rows.length :=
    (setColumn_rows_length A c la).symm
  rw [hlen, concat_cell_right _ _ j hj2 c]
  exact setColumn_cell_self B c lb hB j hj

theorem annotateAndConcat_cell_left_orig (A B : Table) (c la lb c2 : String)
    (hne : c2 ≠ c) (hA : A.WF) (i : Nat) (hi : i < A.rows.length) :
    (annotateAndConcat A B c la lb).cell i c2 = A.cell i c2 := by
  unfold annotateAndConcat
  have hi2 : i < (setColumn A c la).rows.length := by
    rw [setColumn_rows_length]; exact hi
  rw [concat_cell_left _ _ i hi2 c2]
  exact setColumn_cell_other A c la c2 hne hA i

theorem annotateAndConcat_cell_right_orig (A B : Table) (c la lb c2 : String)
    (hne : c2 ≠ c) (hB : B.WF) (j : Nat) (hj : j < B.rows.length) :
    (annotateAndConcat A B c la lb).cell (A.rows.length + j) c2 = B.cell j c2 := by
  unfold annotateAndConcat
  have hj2 : j < (setColumn B c lb).rows.length := by
    rw [setColumn_rows_length]; exact hj
  have hlen : A.rows.length = (setColumn A c la).rows.length :=
    (setColumn_rows_length A c la).symm
  rw [hlen, concat_cell_right _ _ j hj2 c2]
  exact setColumn_cell_other B c lb c2 hne hB j

/-- A table that already has an `HCC Type` column. -/
def tHCC : Table := { cols := ["HCC Type"], rows := [[some "X"]] }

/-- A second input table without that column. -/
def tBempty : Table := { cols := ["DIVNCODE"], rows := [] }

/-- Claim C4 is false as stated: when `columnName` already exists the code
does not fail with a `SchemaError` — `df[c] = v` silently overwrites, so the
operation returns a table in which the pre-existing value `"X"` has been
replaced by the label `"A"`. -/
theorem annotate_overwrite_counterexample :
    "HCC Type" ∈ tHCC.cols
    ∧ annotateAndConcat tHCC tBempty "HCC Type" "A" "B" =
        { cols := ["HCC Type", "DIVNCODE"], rows := [[some "A", none]] }
    ∧ (annotateAndConcat tHCC tBempty "HCC Type" "A" "B").cell 0 "HCC Type" = some "A"
    ∧ tHCC.cell 0 "HCC Type" = some "X" := by
  refine ⟨by decide, by decide, by decide, by decide⟩

/-- Claim C4, amended: `annotateAndConcat` never fails; whether or not
`columnName` already exists in either table, it returns a table in which
every row coming from A has `labelA` and every row coming from B has
`labelB` in that column (an existing column is silently overwritten). -/
theorem annotateAndConcat_no_guard (A B : Table) (c la lb : String)
    (hA : A.WF) (hB : B.WF) :
    (∀ i, i < A.rows.length → (annotateAndConcat A B c la lb).cell i c = some la)
    ∧ (∀ j, j < B.rows.length →
        (annotateAndConcat A B c la lb).cell (A.rows.length + j) c = some lb)
    ∧ (annotateAndConcat A B c la lb).rows.length = A.rows.length + B.rows.length :=
  ⟨fun i hi => annotateAndConcat_cell_la A B c la lb hA i hi,
   fun j hj => annotateAndConcat_cell_lb A B c la lb hB j hj,
   annotateAndConcat_rows_length A B c la lb⟩

/-- Witness for the amended claim C4 at a concrete input: `tHCC` already has
the `HCC Type` column yet the operation succeeds and relabels its row. -/
theorem annotateAndConcat_no_guard_witness :
    tHCC.WF ∧ tBempty.WF
    ∧ (annotateAndConcat tHCC tBempty "HCC Type" "A" "B").cell 0 "HCC Type" = some "A" :=
  ⟨by decide, by decide,
    (annotateAndConcat_no_guard tHCC tBempty "HCC Type" "A" "B"
      (by decide) (by decide)).1 0 (by decide)⟩

/-- Claim C5: `annotateAndConcat(A, B, "HCC Type", "A", "B")` yields
`len(A)+len(B)` rows; the first `len(A)` all carry `HCC Type = "A"` and the
rest `HCC Type = "B"`; and in every other column the tagged rows agree with
the corresponding source row, so each source's rows appear in their original
relative order. -/
theorem annotateAndConcat_hccType_spec (A B : Table) (hA : A.WF) (hB : B.WF) :
    (annotateAndConcat A B "HCC Type" "A" "B").rows.length = A.rows.length + B.rows.length
    ∧ (∀ i, i < A.rows.length →
        (annotateAndConcat A B "HCC Type" "A" "B").cell i "HCC Type" = some "A")
    ∧ (∀ j, j < B.rows.length →
        (annotateAndConcat A B "HCC Type" "A" "B").cell (A.rows.length + j) "HCC Type"
          = some "B")
    ∧ (∀ c2, c2 ≠ "HCC Type" → ∀ i, i < A.rows.length →
        (annotateAndConcat A B "HCC Type" "A" "B").cell i c2 = A.cell i c2)
    ∧ (∀ c2, c2 ≠ "HCC Type" → ∀ j, j < B.rows.length →
        (annotateAndConcat A B "HCC Type" "A" "B").cell (A.rows.length + j) c2
          = B.cell j c2) :=
  ⟨annotateAndConcat_rows_length A B _ _ _,
   fun i hi => annotateAndConcat_cell_la A B _ _ _ hA i hi,
   fun j hj => annotateAndConcat_cell_lb A B _ _ _ hB j hj,
   fun c2 hne i hi => annotateAndConcat_cell_left_orig A B _ _ _ c2 hne hA i hi,
   fun c2 hne j hj => annotateAndConcat_cell_right_orig A B _ _ _ c2 hne hB j hj⟩

/-- A small category-A table. -/
def tA5 : Table := { cols := ["DIVNCODE"], rows := [[some "1"], [some "2"]] }

/-- A small category-B table. -/
def tB5 : Table := { cols := ["DIVNCODE"], rows := [[some "3"]] }

/-- Witness for claim C5 at a concrete input. -/
theorem annotateAndConcat_hccType_spec_witness :
    tA5.WF ∧ tB5.WF
    ∧ (annotateAndConcat tA5 tB5 "HCC Type" "A" "B").cell 0 "HCC Type" = some "A"
    ∧ (annotateAndConcat tA5 tB5 "HCC Type" "A" "B").cell (tA5.rows.length + 0) "HCC Type"
        = some "B"
    ∧ (annotateAndConcat tA5 tB5 "HCC Type" "A" "B").cell 1 "DIVNCODE"
        = tA5.cell 1 "DIVNCODE" :=
  ⟨by decide, by decide,
   (annotateAndConcat_hccType_spec tA5 tB5 (by decide) (by decide)).2.1 0 (by decide),
   (annotateAndConcat_hccType_spec tA5 tB5 (by decide) (by decide)).2.2.1 0 (by decide),
   (annotateAndConcat_hccType_spec tA5 tB5 (by decide) (by decide)).2.2.2.1 "DIVNCODE"
     (by decide) 1 (by decide)⟩

/-- A workbook: named sheets in order, each backed by a table. -/
abbrev Workbook := List (String × Table)

/-- Embeds `process_and_format` up to serialization: validate the required
columns, then build the two sheets `GovtCAN_Yes` and `GovtCAN_No`.  An
exception propagates to the caller, who then returns no bytes. -/
def processAndFormat (t : Table) : Except Err Workbook :=
  match requireColumns t requiredCols with
  | Except.error e => Except.error e
  | Except.ok _ => Except.ok [("GovtCAN_Yes", govtYes t), ("GovtCAN_No", govtNo t)]

/-- Embeds `process_combined_files` up to serialization: tag both tables with
`HCC Type` and concatenate into the single sheet `Combined`.  No column
validation happens here, exactly as in the source. -/
def processCombinedFiles (A B : Table) : Workbook :=
  [("Combined", annotateAndConcat A B "HCC Type" "A" "B")]

/-- Embeds the combined route's processing: `process_and_format` on A, then
on B, then `process_combined_files`, then the zip entries in order; any
exception aborts the whole operation before an archive exists. -/
def processCombined (A B : Table) : Except Err (List (String × Workbook)) :=
  match processAndFormat A with
  | Except.error e => Except.error e
  | Except.ok wa =>
    match processAndFormat B with
    | Except.error e => Except.error e
    | Except.ok wb =>
      Except.ok [("Unbilled_CAT_A.xlsx", wa), ("Unbilled_CAT_B.xlsx", wb),
        ("Unbilled_CAT_A_and_B_Combined.xlsx", processCombinedFiles A B)]

theorem processAndFormat_ok_shape (t : Table) (wb : Workbook)
    (h : processAndFormat t = Except.ok wb) :
    wb = [("GovtCAN_Yes", govtYes t), ("GovtCAN_No", govtNo t)] := by
  unfold processAndFormat at h
  cases hr : requireColumns t requiredCols with
  | error e => rw [hr] at h; cases h
  | ok u => rw [hr] at h; cases h; rfl

/-- An input table that already carries an `HCC Type` column besides the
required three. -/
def tA8 : Table :=
  { cols := ["ISGOVTCAN", "DIVNCODE", "LASTDEMAND", "HCC Type"],
    rows := [[some "Yes", some "1", some "5", some "x"]] }

/-- A plain second input with just the required columns. -/
def tB8 : Table :=
  { cols := ["ISGOVTCAN", "DIVNCODE", "LASTDEMAND"],
    rows := [[some "No", some "2", some "7"]] }

/-- Claim C8 is false as stated: when input A itself contains an `HCC Type`
column, the combined operation succeeds and the first workbook's sheets do
contain an `HCC Type` column — the pipeline never removes columns, it only
refrains from adding one to the first two workbooks. -/
theorem combined_no_hcc_counterexample :
    ((processCombined tA8 tB8).map (fun arch =>
        arch.map (fun en => (en.1, en.2.map (fun sh => (sh.1, sh.2.cols)))))
      = Except.ok
        [("Unbilled_CAT_A.xlsx",
          [("GovtCAN_Yes", ["ISGOVTCAN", "DIVNCODE", "LASTDEMAND", "HCC Type"]),
           ("GovtCAN_No", ["ISGOVTCAN", "DIVNCODE", "LASTDEMAND", "HCC Type"])]),
         ("Unbilled_CAT_B.xlsx",
          [("GovtCAN_Yes", ["ISGOVTCAN", "DIVNCODE", "LASTDEMAND"]),
           ("GovtCAN_No", ["ISGOVTCAN", "DIVNCODE", "LASTDEMAND"])]),
         ("Unbilled_CAT_A_and_B_Combined.xlsx",
          [("Combined", ["ISGOVTCAN", "DIVNCODE", "LASTDEMAND", "HCC Type"])])])
    ∧ "HCC Type" ∈ (govtYes tA8).cols :=
  ⟨rfl, by decide⟩

/-- Claim C8, amended: for inputs with the required columns the combined
operation returns an archive of exactly the three entries, in order
`Unbilled_CAT_A.xlsx`, `Unbilled_CAT_B.xlsx`,
`Unbilled_CAT_A_and_B_Combined.xlsx`; the first two hold only the Yes/No
split of the respective input with the input's own column list (no `HCC
Type` column is added — one already present in the input is passed
through); the third holds the single sheet `Combined` with A's rows tagged
`"A"` followed by B's rows tagged `"B"`. -/
theorem processCombined_spec (A B : Table)
    (hA : requireColumns A requiredCols = Except.ok ())
    (hB : requireColumns B requiredCols = Except.ok ())
    (hWA : A.WF) (hWB : B.WF) :
    processCombined A B = Except.ok
      [("Unbilled_CAT_A.xlsx", [("GovtCAN_Yes", govtYes A), ("GovtCAN_No", govtNo A)]),
       ("Unbilled_CAT_B.xlsx", [("GovtCAN_Yes", govtYes B), ("GovtCAN_No", govtNo B)]),
       ("Unbilled_CAT_A_and_B_Combined.xlsx",
         [("Combined", annotateAndConcat A B "HCC Type" "A" "B")])]
    ∧ (govtYes A).cols = A.cols ∧ (govtNo A).cols = A.cols
    ∧ (govtYes B).cols = B.cols ∧ (govtNo B).cols = B.cols
    ∧ ("HCC Type" ∉ A.cols →
        "HCC Type" ∉ (govtYes A).cols ∧ "HCC Type" ∉ (govtNo A).cols)
    ∧ (∀ i, i < A.rows.length →
        (annotateAndConcat A B "HCC Type" "A" "B").cell i "HCC Type" = some "A")
    ∧ (∀ j, j < B.rows.length →
        (annotateAndConcat A B "HCC Type" "A" "B").cell (A.rows.length + j) "HCC Type"
          = some "B") := by
  refine ⟨?_, rfl, rfl, rfl, rfl, fun h => ⟨h, h⟩, ?_, ?_⟩
  · unfold processCombined processAndFormat
    rw [hA, hB]
    rfl
  · exact fun i hi => annotateAndConcat_cell_la A B _ _ _ hWA i hi
  · exact fun j hj => annotateAndConcat_cell_lb A B _ _ _ hWB j hj

/-- A valid category-A input. -/
def tAok : Table :=
  { cols := ["ISGOVTCAN", "DIVNCODE", "LASTDEMAND"],
    rows := [[some "Yes", some "1", some "100"], [some "No", some "2", some "50"]] }

/-- A valid category-B input. -/
def tBok : Table :=
  { cols := ["ISGOVTCAN", "DIVNCODE", "LASTDEMAND"],
    rows := [[some "No", some "3", some "70"]] }

/-- Witness for the amended claim C8 at concrete valid inputs: the archive
has exactly the three entries with the expected names. -/
theorem processCombined_spec_witness :
    requireColumns tAok requiredCols = Except.ok ()
    ∧ requireColumns tBok requiredCols = Except.ok ()
    ∧ tAok.WF ∧ tBok.WF
    ∧ (processCombined tAok tBok).map (fun arch => arch.map Prod.fst)
        = Except.ok
          ["Unbilled_CAT_A.xlsx", "Unbilled_CAT_B.xlsx",
           "Unbilled_CAT_A_and_B_Combined.xlsx"] :=
  ⟨by rfl, by rfl, by decide, by decide, by
    rw [(processCombined_spec tAok tBok (by rfl) (by rfl)
      (by decide) (by decide)).1]
    rfl⟩

/-- Claim C9: at the interface, each operation either fails — and then no
workbook or archive value exists, the caller receives only the error — or
returns the complete output: the single-category workbook always has exactly
the two sheets, and the combined archive always has exactly the three
workbooks, each complete; no partially-built value is ever returned. -/
theorem no_partial_output (t A B : Table) :
    ((∃ e, processAndFormat t = Except.error e)
      ∨ (processAndFormat t).map (fun wb => wb.map Prod.fst)
          = Except.ok ["GovtCAN_Yes", "GovtCAN_No"])
    ∧ ((∃ e, processCombined A B = Except.error e)
      ∨ (processCombined A B).map (fun arch =>
            arch.map (fun en => (en.1, en.2.map Prod.fst)))
          = Except.ok
            [("Unbilled_CAT_A.xlsx", ["GovtCAN_Yes", "GovtCAN_No"]),
             ("Unbilled_CAT_B.xlsx", ["GovtCAN_Yes", "GovtCAN_No"]),
             ("Unbilled_CAT_A_and_B_Combined.xlsx", ["Combined"])]) := by
  constructor
  · cases hr : requireColumns t requiredCols with
    | error e =>
      exact Or.inl ⟨e, by unfold processAndFormat; rw [hr]⟩
    | ok u =>
      cases u
      refine Or.inr ?_
      unfold processAndFormat
      rw [hr]
      rfl
  · cases ha : processAndFormat A with
    | error e =>
      exact Or.inl ⟨e, by unfold processCombined; rw [ha]⟩
    | ok wa =>
      cases hb : processAndFormat B with
      | error e =>
        exact Or.inl ⟨e, by unfold processCombined; rw [ha, hb]⟩
      | ok wb =>
        refine Or.inr ?_
        unfold processCombined
        rw [ha, hb, processAndFormat_ok_shape A wa ha, processAndFormat_ok_shape B wb hb]
        rfl

/-- A worksheet cell value as openpyxl reads it back after the xlsx
round-trip: a string, an integer, a boolean, or an empty cell (`None`).
Strings, integers and booleans arise from `read_csv` column dtypes. -/
inductive CellVal where
  | vStr (s : String)
  | vInt (n : Int)
  | vBool (b : Bool)
  | vNone
deriving DecidableEq, Repr

/-- Python `str()` of a worksheet cell value. -/
def pyStr : CellVal → String
  | .vStr s => s
  | .vInt n => toString n
  | .vBool b => if b then "True" else "False"
  | .vNone => "None"

/-- Python truthiness of a cell value, as tested by the source's
`cell.value or ""`. -/
def truthy : CellVal → Bool
  | .vStr s => !(s == "")
  | .vInt n => !(n == 0)
  | .vBool b => b
  | .vNone => false

/-- The source's per-cell measure `len(str(cell.value or ""))`: a falsy value
(None, empty string, 0, False) renders as the empty string. -/
def codeCellLen (v : CellVal) : Nat :=
  if truthy v then (pyStr v).length else 0

/-- Modelled from the spec's words for claim C7: the length of the cell value
rendered as a string, with empty or missing cells counted as the empty
string. -/
def specCellLen : CellVal → Nat
  | .vNone => 0
  | v => (pyStr v).length

/-- A worksheet: header row (row 1) and data rows, all cells typed. -/
structure Sheet where
  header : List String
  rows : List (List CellVal)

/-- Number of columns, i.e. headers, of the sheet. -/
def Sheet.ncols (sh : Sheet) : Nat := sh.header.length

/-- The cells of column `j` (0-based) over rows `1..max_row`, header
included; a cell missing from a short row reads back as `None`. -/
def columnCells (sh : Sheet) (j : Nat) : List CellVal :=
  CellVal.vStr (sh.header.getD j "") :: sh.rows.map (fun r => r.getD j CellVal.vNone)

/-- The width the source assigns to column `j`:
`max(len(str(cell.value or "")) for rows 1..max_row) + 2`. -/
def codeColumnWidth (sh : Sheet) (j : Nat) : Nat :=
  ((columnCells sh j).map codeCellLen).foldl max 0 + 2

/-- Modelled from the spec's words for claim C7: the maximum over the column
of the length of the cell rendered as a string (empty/missing as the empty
string), plus 2. -/
def specColumnWidth (sh : Sheet) (j : Nat) : Nat :=
  ((columnCells sh j).map specCellLen).foldl max 0 + 2

/-- Fuel-driven core of openpyxl's `get_column_letter` (bijective base 26). -/
def gclAux : Nat → Nat → String
  | _, 0 => ""
  | 0, _ + 1 => ""
  | fuel + 1, n + 1 => gclAux fuel (n / 26) ++ String.mk [Char.ofNat (65 + n % 26)]

/-- openpyxl's `get_column_letter`: 1 → `"A"`, 16 → `"P"`, 27 → `"AA"`. -/
def getColumnLetter (n : Nat) : String := gclAux n n

theorem gclAux_eq : ∀ fuel n, n ≤ fuel → gclAux fuel n = gclAux n n := by
  intro fuel
  induction fuel using Nat.strong_induction_on with
  | _ fuel ih =>
    intro n hn
    cases n with
    | zero => cases fuel <;> rfl
    | succ m =>
      cases fuel with
      | zero => omega
      | succ f =>
        simp only [gclAux]
        congr 1
        rw [ih f (by omega) (m / 26) (le_trans (Nat.div_le_self m 26) (by omega)),
          ih m (by omega) (m / 26) (Nat.div_le_self m 26)]

theorem getColumnLetter_succ (n : Nat) :
    getColumnLetter (n + 1) =
      getColumnLetter (n / 26) ++ String.mk [Char.ofNat (65 + n % 26)] := by
  show gclAux (n + 1) (n + 1) = _
  simp only [gclAux]
  congr 1
  exact gclAux_eq n (n / 26) (Nat.div_le_self n 26)

theorem getColumnLetter_length_pos (n : Nat) (h : 1 ≤ n) :
    1 ≤ (getColumnLetter n).length := by
  cases n with
  | zero => omega
  | succ m =>
    rw [getColumnLetter_succ, String.length_append]
    have hone : (String.mk [Char.ofNat (65 + m % 26)]).length = 1 := rfl
    omega

/-- The column letter is `"A"` or `"P"` exactly at positions 1 and 16: for a
single-letter position the letter determines the position, and any position
above 26 yields at least two letters. -/
theorem getColumnLetter_fill (n : Nat) (h : 1 ≤ n) :
    (getColumnLetter n = "A" ∨ getColumnLetter n = "P") ↔ (n = 1 ∨ n = 16) := by
  constructor
  · intro hap
    cases n with
    | zero => omega
    | succ m =>
      by_cases hm : m < 26
      · have h26 : m / 26 = 0 := Nat.div_eq_of_lt hm
        have hmod : m % 26 = m := Nat.mod_eq_of_lt hm
        rw [getColumnLetter_succ, h26, hmod] at hap
        have happ : getColumnLetter 0 ++ String.mk [Char.ofNat (65 + m)] =
            String.mk [Char.ofNat (65 + m)] := rfl
        rw [happ] at hap
        have hdec : ∀ k, k < 26 →
            (String.mk [Char.ofNat (65 + k)] = "A" ∨ String.mk [Char.ofNat (65 + k)] = "P") →
              (k = 0 ∨ k = 15) := by decide
        rcases hdec m hm hap with rfl | rfl
        · exact Or.inl rfl
        · exact Or.inr rfl
      · exfalso
        have hq : 1 ≤ m / 26 := (Nat.one_le_div_iff (by omega)).mpr (by omega)
        have hlen : 2 ≤ (getColumnLetter (m + 1)).length := by
          rw [getColumnLetter_succ, String.length_append]
          have h1 : 1 ≤ (getColumnLetter (m / 26)).length :=
            getColumnLetter_length_pos _ hq
          have h2 : (String.mk [Char.ofNat (65 + m % 26)]).length = 1 := rfl
          omega
        rcases hap with he | he <;> rw [he] at hlen <;> revert hlen <;> decide
  · rintro (rfl | rfl)
    · left; rfl
    · right; rfl

/-- A sheet as styled by the source's pass: the style predicates take a
1-indexed row and column; only row-1 cells within the sheet's columns are
touched, and the fill lands where `get_column_letter` yields `"A"` or
`"P"`. -/
structure StyledSheet where
  name : String
  sheet : Sheet
  bold : Nat → Nat → Bool
  centered : Nat → Nat → Bool
  filled : Nat → Nat → Bool
  widths : List Nat

/-- Embeds the per-sheet styling loop of the source: for each header cell,
set bold font and centered alignment, fill when the column letter is `"A"`
or `"P"`, and set the column width from the maximum cell length plus 2. -/
def styleSheet (nm : String) (sh : Sheet) : StyledSheet :=
  { name := nm
    sheet := sh
    bold := fun r cdx => decide (r = 1) && decide (1 ≤ cdx) && decide (cdx ≤ sh.ncols)
    centered := fun r cdx => decide (r = 1) && decide (1 ≤ cdx) && decide (cdx ≤ sh.ncols)
    filled := fun r cdx => decide (r = 1) && decide (1 ≤ cdx) && decide (cdx ≤ sh.ncols)
      && (getColumnLetter cdx == "A" || getColumnLetter cdx == "P")
    widths := (List.range sh.ncols).map (fun j => codeColumnWidth sh j) }

/-- Embeds `writeWorkbook`: serialize the named sheets and run the styling
pass on row 1 of each. -/
def writeWorkbook (sheets : List (String × Sheet)) : List StyledSheet :=
  sheets.map (fun p => styleSheet p.1 p.2)

/-- Claim C6: in every workbook written by `writeWorkbook`, every header
cell (row 1, columns 1..ncols) is bold and centered, and a cell carries the
solid fill exactly when it is the header cell at column position 1 or 16 and
the sheet has that many columns — no other cell is filled. -/
theorem header_style_spec (sheets : List (String × Sheet)) (ss : StyledSheet)
    (hss : ss ∈ writeWorkbook sheets) (r cdx : Nat) :
    (r = 1 → 1 ≤ cdx → cdx ≤ ss.sheet.ncols →
      ss.bold r cdx = true ∧ ss.centered r cdx = true)
    ∧ (ss.filled r cdx = true ↔
        r = 1 ∧ 1 ≤ cdx ∧ cdx ≤ ss.sheet.ncols ∧ (cdx = 1 ∨ cdx = 16)) := by
  rcases List.mem_map.mp hss with ⟨p, _, rfl⟩
  constructor
  · intro hr h1 h2
    have h2b : cdx ≤ p.2.ncols := h2
    constructor
    · show (decide (r = 1) && decide (1 ≤ cdx) && decide (cdx ≤ p.2.ncols)) = true
      simp [hr, h1, h2b]
    · show (decide (r = 1) && decide (1 ≤ cdx) && decide (cdx ≤ p.2.ncols)) = true
      simp [hr, h1, h2b]
  · show (decide (r = 1) && decide (1 ≤ cdx) && decide (cdx ≤ p.2.ncols)
      && (getColumnLetter cdx == "A" || getColumnLetter cdx == "P")) = true ↔ _
    simp only [Bool.and_eq_true, decide_eq_true_eq, Bool.or_eq_true, beq_iff_eq]
    constructor
    · rintro ⟨⟨⟨hr, h1⟩, h2⟩, hap⟩
      exact ⟨hr, h1, h2, (getColumnLetter_fill cdx h1).mp hap⟩
    · rintro ⟨hr, h1, h2, h16⟩
      exact ⟨⟨⟨hr, h1⟩, h2⟩, (getColumnLetter_fill cdx h1).mpr h16⟩

/-- A 16-column sheet to exercise both fill positions. -/
def shW : Sheet := { header := List.replicate 16 "c", rows := [] }

/-- Witness for claim C6 at a concrete sheet: header cells are bold and
centered, position 16 is filled, position 2 is not. -/
theorem header_style_spec_witness :
    ((styleSheet "S" shW).bold 1 1 = true ∧ (styleSheet "S" shW).centered 1 1 = true)
    ∧ (styleSheet "S" shW).filled 1 16 = true
    ∧ (styleSheet "S" shW).filled 1 2 = false := by
  have hm : styleSheet "S" shW ∈ writeWorkbook [("S", shW)] :=
    List.mem_singleton.mpr rfl
  refine ⟨(header_style_spec [("S", shW)] _ hm 1 1).1 rfl (by decide) (by decide),
    (header_style_spec [("S", shW)] _ hm 1 16).2.mpr
      ⟨rfl, by decide, by decide, Or.inr rfl⟩, ?_⟩
  have hiff := (header_style_spec [("S", shW)] _ hm 1 2).2
  by_contra hb
  simp only [Bool.not_eq_false] at hb
  rcases (hiff.mp hb).2.2.2 with he | he <;> omega

/-- A sheet whose data cell is the boolean `False` (a CSV column containing
only `True`/`False` loads as a boolean column and round-trips as booleans). -/
def shBool : Sheet := { header := ["B"], rows := [[CellVal.vBool false]] }

/-- Claim C7 is false as stated: openpyxl reads the cell back as boolean
`False`, `str(False)` has length 5, so the claim's formula gives `5 + 2 = 7`;
but the source measures `len(str(value or ""))` and `False` is falsy, so the
written width is `len("B") + 2 = 3`. -/
theorem column_width_claim_counterexample :
    (writeWorkbook [("S", shBool)]).map (fun ss => ss.widths) = [[3]]
    ∧ specColumnWidth shBool 0 = 7
    ∧ codeColumnWidth shBool 0 ≠ specColumnWidth shBool 0 :=
  ⟨rfl, rfl, by decide⟩

/-- Claim C7, amended: the written width of a column equals the claim's
`max(len(str(cell))) + 2` formula provided no cell of the column holds a
falsy non-empty value (such as `0` or `False`); such cells are measured as
the empty string by the source. -/
theorem column_width_spec (sheets : List (String × Sheet)) (ss : StyledSheet)
    (hss : ss ∈ writeWorkbook sheets) (j : Nat) (hj : j < ss.sheet.ncols)
    (hcells : ∀ v ∈ columnCells ss.sheet j, truthy v = true ∨ specCellLen v = 0) :
    ss.widths.getD j 0 = specColumnWidth ss.sheet j := by
  rcases List.mem_map.mp hss with ⟨p, _, rfl⟩
  have hj2 : j < p.2.ncols := hj
  show ((List.range p.2.ncols).map (fun j2 => codeColumnWidth p.2 j2)).getD j 0 = _
  rw [getD_map_lt _ _ j 0 0 (by simpa using hj2)]
  rw [List.getD_eq_getElem?_getD, List.getElem?_range hj2]
  show codeColumnWidth p.2 j = specColumnWidth p.2 j
  unfold codeColumnWidth specColumnWidth
  congr 2
  apply List.map_congr_left
  intro v hv
  by_cases ht : truthy v = true
  · unfold codeCellLen
    rw [if_pos ht]
    cases v with
    | vStr s => rfl
    | vInt n => rfl
    | vBool b => rfl
    | vNone => exact absurd ht (by simp [truthy])
  · rcases hcells v hv with ht2 | hz
    · exact absurd ht2 ht
    · unfold codeCellLen
      rw [if_neg ht]
      exact hz.symm

/-- A column with only truthy values. -/
def shGood : Sheet :=
  { header := ["DIVNCODE"], rows := [[CellVal.vInt 5], [CellVal.vStr "abc"]] }

/-- Witness for the amended claim C7 at a concrete sheet. -/
theorem column_width_spec_witness :
    (0 < shGood.ncols)
    ∧ (∀ v ∈ columnCells shGood 0, truthy v = true ∨ specCellLen v = 0)
    ∧ (styleSheet "S" shGood).widths.getD 0 0 = specColumnWidth shGood 0 :=
  ⟨by decide, by decide,
    column_width_spec [("S", shGood)] _ (List.mem_singleton.mpr rfl) 0
      (by decide) (by decide)⟩

end HMWSSB
